import Mathlib

/-!
Shallow embedding of the VSCode-Patch-Apply extension
(`src/PatchApplyViewProvider.ts`).  Pure string manipulation is translated
to Lean functions over `String`/`List Char`; the interactive VS Code
collaborators (file resolution dialogs, stat, read/write/delete) are made
explicit through an environment record and an effect trace, mirroring the
control flow of `applySinglePatch` / `applyAllPatchesToFiles`.  The diff
library (`Diff.parsePatch` / `Diff.applyPatch` from the npm `diff`
package) is not part of this repository's sources; where a claim depends
on it, the patch-application engine is kept abstract (a function in the
environment) and the parser is modelled from the specification, as marked.
-/

namespace PatchApply

/-- Character class matched by JavaScript's `String.prototype.trim`
(whitespace and line terminators; the common members suffice here). -/
def isJsSpace (c : Char) : Bool :=
  c == ' ' || c == '\t' || c == '\n' || c == '\r' || c == '\x0b' ||
  c == '\x0c' || c == '\u00A0' || c == '\uFEFF' || c == '\u2028' || c == '\u2029'

/-- Trim `isJsSpace` characters from both ends of a character list. -/
def trimList (l : List Char) : List Char :=
  ((l.dropWhile isJsSpace).reverse.dropWhile isJsSpace).reverse

/-- JavaScript `str.trim()`. -/
def jsTrim (s : String) : String := ⟨trimList s.data⟩

/-- JavaScript `str.startsWith(p)`. -/
def strStarts (p s : String) : Bool := p.data.isPrefixOf s.data

/-- JavaScript `str.endsWith(p)`. -/
def strEnds (p s : String) : Bool := p.data.isSuffixOf s.data

/-- JavaScript `str.substring(n)` (drop the first `n` characters). -/
def strDropN (s : String) (n : Nat) : String := ⟨s.data.drop n⟩

/-- JavaScript `str.substring(0, str.length - n)` (drop the last `n` characters). -/
def strDropRightN (s : String) (n : Nat) : String := ⟨s.data.take (s.data.length - n)⟩

/-- JavaScript truthiness of an optional string (`undefined` and `''` are falsy). -/
def jsTruthy : Option String → Bool
  | none => false
  | some s => !(s == "")

/-- First pass of `normalizeLineEndings`: the global replacement
`str.replace(/\r\n/g, '\n')`, scanning left to right. -/
def replCRLF : List Char → List Char
  | '\r' :: '\n' :: rest => '\n' :: replCRLF rest
  | c :: rest => c :: replCRLF rest
  | [] => []

/-- Source `normalizeLineEndings` (PatchApplyViewProvider.ts:7-10):
`if (!str) return ''; return str.replace(/\r\n/g,'\n').replace(/\r/g,'\n')`. -/
def normalizeLineEndings (str : String) : String :=
  if str = "" then ""
  else ⟨(replCRLF str.data).map fun c => if c = '\r' then '\n' else c⟩

/-- Source `cleanDiffInput` (PatchApplyViewProvider.ts:63-72): trim, strip a
leading "```diff" opener, strip a trailing "```", trim again. -/
def cleanDiffInput (rawDiffText : String) : String :=
  let c1 := jsTrim rawDiffText
  let c2 := if strStarts "```diff" c1 then strDropN c1 7 else c1
  let c3 := if strEnds "```" c2 then strDropRightN c2 3 else c2
  jsTrim c3

/-! ## Data model of the parsed patch (jsdiff `StructuredPatch`)

The source aliases `Diff.StructuredPatch` as `ParsedPatchType`; the fields
it actually uses are the two optional file names and the hunks, each hunk
carrying its raw body lines (marker character followed by payload). -/

/-- One hunk of a jsdiff `StructuredPatch`: range header numbers plus raw
body lines (`" x"`, `"+x"`, `"-x"`, `"\ No newline at end of file"`). -/
structure JHunk where
  oldStart : Nat
  oldLines : Nat
  newStart : Nat
  newLines : Nat
  lines : List String
  deriving DecidableEq, Repr

/-- jsdiff `StructuredPatch` as consumed by the source (file names may be
absent, i.e. `undefined`). -/
structure StructuredPatch where
  oldFileName : Option String
  newFileName : Option String
  hunks : List JHunk
  deriving DecidableEq, Repr

/-! ## Content Reconstructor (`processAndShowAllDiffs`, lines 108-125)

For each hunk line, `changeType = line.charAt(0)` and
`lineContent = line.substring(1)`; lines whose first character is `' '` or
`'-'` feed the original side, `' '` or `'+'` the modified side. -/

/-- Selection made by the source loop for the original side of the preview. -/
def srcOldSel (l : String) : Option String :=
  match l.data with
  | [] => none
  | c :: rest => if c = ' ' ∨ c = '-' then some ⟨rest⟩ else none

/-- Selection made by the source loop for the modified side of the preview. -/
def srcNewSel (l : String) : Option String :=
  match l.data with
  | [] => none
  | c :: rest => if c = ' ' ∨ c = '+' then some ⟨rest⟩ else none

/-- Source `originalContentLines` accumulated across all hunks in order. -/
def originalContentLines (hunks : List JHunk) : List String :=
  hunks.flatMap fun h => h.lines.filterMap srcOldSel

/-- Source `newContentLines` accumulated across all hunks in order. -/
def newContentLines (hunks : List JHunk) : List String :=
  hunks.flatMap fun h => h.lines.filterMap srcNewSel

/-- The original-side preview text: `normalizeLineEndings(lines.join('\n'))`. -/
def reconstructOriginal (hunks : List JHunk) : String :=
  normalizeLineEndings (String.intercalate "\n" (originalContentLines hunks))

/-- The modified-side preview text: `normalizeLineEndings(lines.join('\n'))`. -/
def reconstructModified (hunks : List JHunk) : String :=
  normalizeLineEndings (String.intercalate "\n" (newContentLines hunks))

/-! Specification-side view of diff lines (spec §3 data model / §4.1 Line
Classifier), used to state the reconstructor claim as a refinement. -/

/-- Spec §3: a diff body line is `Context`, `Added`, `Removed` or the
no-newline marker. -/
inductive PLine where
  | context (t : String)
  | added (t : String)
  | removed (t : String)
  | noNewline
  deriving DecidableEq, Repr

/-- Spec §4.1 Line Classifier: classify a raw line by its first character;
any other leading character is malformed (`none`). -/
def classifyLine (l : String) : Option PLine :=
  match l.data with
  | [] => none
  | c :: rest =>
    if c = ' ' then some (.context ⟨rest⟩)
    else if c = '+' then some (.added ⟨rest⟩)
    else if c = '-' then some (.removed ⟨rest⟩)
    else if c = '\\' then some .noNewline
    else none

/-- Payload contributed to the original text (spec: Context and Removed lines). -/
def plineOld : PLine → Option String
  | .context t => some t
  | .removed t => some t
  | _ => none

/-- Payload contributed to the modified text (spec: Context and Added lines). -/
def plineNew : PLine → Option String
  | .context t => some t
  | .added t => some t
  | _ => none

/-- Spec §4.5 projection: Context+Removed payloads across all hunks in order. -/
def specOldLines (hunks : List JHunk) : List String :=
  hunks.flatMap fun h => (h.lines.filterMap classifyLine).filterMap plineOld

/-- Spec §4.5 projection: Context+Added payloads across all hunks in order. -/
def specNewLines (hunks : List JHunk) : List String :=
  hunks.flatMap fun h => (h.lines.filterMap classifyLine).filterMap plineNew

/-! ## Model of `applySinglePatch` (lines 218-434)

The interactive target-resolution workflow (input box, quick picks, open
dialog, lines 243-346) and the filesystem collaborators are external per
spec §6; they are modelled by an environment record answering each query,
and the file/UI operations the function performs are recorded as an effect
trace.  The diff engine (`Diff.applyPatch`) is a function in the
environment returning `some newContent` or `none` (jsdiff's `false`). -/

/-- Kind of user notification shown (`showInformationMessage`,
`showWarningMessage`, `showErrorMessage`). -/
inductive MsgKind where
  | info
  | warning
  | error
  deriving DecidableEq, Repr

/-- Observable collaborator operations performed by `applySinglePatch`. -/
inductive Effect where
  | readFile
  | writeFile (content : String)
  | deleteFile
  | engineCall (fuzz : Nat) (input : String)
  | msg (k : MsgKind)
  deriving DecidableEq, Repr

/-- Outcome of the `fs.stat` probe on the chosen target. -/
inductive StatKind where
  | file
  | directory
  | notFound
  | statError
  deriving DecidableEq, Repr

/-- Environment answering every external query one `applySinglePatch` call
makes: whether target resolution yields a target or is cancelled, whether a
VS Code API call in the resolution phase rejects (an exception outside the
function's try block), the stat result, the overwrite confirmation, the
bytes read from the target, and the diff engine. -/
structure ApplyEnv where
  targetResolved : Bool
  resolutionThrows : Bool
  statResult : StatKind
  overwriteOk : Bool
  fileContent : String
  engine : String → StructuredPatch → Nat → Option String

/-- Result of one `applySinglePatch` call: either an exception escaping to
the caller's catch, or a boolean return value plus the effect trace. -/
inductive SingleResult where
  | exn
  | ret (success : Bool) (effects : List Effect)
  deriving DecidableEq, Repr

/-- Line 219: `oldFileName === 'a/dev/null' || oldFileName === '/dev/null'`. -/
def isNewFile (p : StructuredPatch) : Bool :=
  p.oldFileName == some "a/dev/null" || p.oldFileName == some "/dev/null"

/-- Line 220: `newFileName === 'b/dev/null' || newFileName === '/dev/null'`. -/
def isDeletedFile (p : StructuredPatch) : Bool :=
  p.newFileName == some "b/dev/null" || p.newFileName == some "/dev/null"

/-- Source `replace(/^a\//, '')`: strip one leading `a/` if present. -/
def stripA (s : String) : String := if strStarts "a/" s then strDropN s 2 else s

/-- Source `replace(/^b\//, '')`: strip one leading `b/` if present. -/
def stripB (s : String) : String := if strStarts "b/" s then strDropN s 2 else s

/-- Lines 225-229: the initial `searchFileNameNormalized`. -/
def searchName0 (p : StructuredPatch) : Option String :=
  if isNewFile p then p.newFileName.map stripB else p.oldFileName.map stripA

/-- Line 233 guard: `!s || s === '/dev/null' || s.trim() === ''`. -/
def isBadName : Option String → Bool
  | none => true
  | some s => s == "" || s == "/dev/null" || jsTrim s == ""

/-- Effect-list predicate: no write and no delete occurred. -/
def untouched (effs : List Effect) : Bool :=
  effs.all fun e =>
    match e with
    | .writeFile _ => false
    | .deleteFile => false
    | _ => true

/-- Tail of `applySinglePatch` from line 388: normalize the original,
invoke the engine with `fuzzFactor: 2`, then branch on the result and on
the deletion sentinel exactly as lines 394-425 do. -/
def applyCore (env : ApplyEnv) (p : StructuredPatch) (isDel : Bool)
    (pre : List Effect) (original : String) : SingleResult :=
  let normalized := normalizeLineEndings original
  match env.engine normalized p 2 with
  | none => .ret false (pre ++ [.engineCall 2 normalized, .msg .error])
  | some r =>
    if isDel then
      if jsTrim r == "" then
        .ret true (pre ++ [.engineCall 2 normalized, .deleteFile, .msg .info])
      else
        .ret true (pre ++ [.engineCall 2 normalized, .writeFile r, .msg .warning])
    else
      .ret true (pre ++ [.engineCall 2 normalized, .writeFile r, .msg .info])

/-- Model of `applySinglePatch` (lines 218-434).  Phases in source order:
file-name determination (219-241), interactive target resolution (243-346,
abstracted to `targetResolved`/`resolutionThrows` — an exception here is
outside the function's try block and escapes to the caller), the stat probe
(352-365; a non-not-found stat error is rethrown at 363 and caught by the
function's own catch at 427, yielding `false`), the creation/modification
split for the original content (367-386), then `applyCore`. -/
def applySinglePatch (env : ApplyEnv) (p : StructuredPatch) : SingleResult :=
  let isNew := isNewFile p
  let isDel := isDeletedFile p
  let nameOk := !(isBadName (searchName0 p)) || (isNew && jsTruthy p.newFileName)
  if !nameOk then .ret false [.msg .error]
  else if env.resolutionThrows then .exn
  else if !env.targetResolved then .ret false [.msg .info]
  else if env.statResult == .statError then .ret false [.msg .error]
  else if env.statResult == .directory then .ret false [.msg .error]
  else
    let fileExists := env.statResult == .file
    if isNew then
      if fileExists && !env.overwriteOk then .ret false [.msg .info]
      else applyCore env p isDel [] ""
    else
      if !fileExists then .ret false [.msg .error]
      else applyCore env p isDel [.readFile] env.fileContent

/-! ## Model of `applyAllPatchesToFiles` (lines 156-216) -/

/-- Outcome of the `Diff.parsePatch` call inside the caller's try/catch. -/
inductive ParseOutcome where
  | threw
  | parsed (ps : List StructuredPatch)

/-- Aggregate result of one apply-all session. -/
structure SessionResult where
  applied : Nat
  skipped : Nat
  errors : Nat
  effects : List Effect
  parseFailed : Bool
  summary : Option String
  deriving Repr

/-- Line 208 summary template, mentioning all three counters. -/
def summaryMessage (a s e : Nat) : String :=
  "Patch application process finished. Applied: " ++ toString a ++
  ", Skipped/Cancelled: " ++ toString s ++ ", Errors: " ++ toString e ++ "."

/-- The per-patch loop (lines 186-206): zero-hunk patches are skipped with
an info message; otherwise `applySinglePatch` decides applied vs skipped,
and an exception escaping it increments the error counter.  `envs i`
answers the collaborator queries of the `i`-th patch. -/
def sessionLoop (envs : Nat → ApplyEnv) :
    List StructuredPatch → Nat → Nat × Nat × Nat × List Effect
  | [], _ => (0, 0, 0, [])
  | p :: rest, i =>
    let r := sessionLoop envs rest (i + 1)
    if p.hunks.isEmpty then
      (r.1, r.2.1 + 1, r.2.2.1, .msg .info :: r.2.2.2)
    else
      match applySinglePatch (envs i) p with
      | .exn => (r.1, r.2.1, r.2.2.1 + 1, .msg .error :: r.2.2.2)
      | .ret true fx => (r.1 + 1, r.2.1, r.2.2.1, fx ++ r.2.2.2)
      | .ret false fx => (r.1, r.2.1 + 1, r.2.2.1, fx ++ r.2.2.2)

/-- Model of `applyAllPatchesToFiles` after input cleaning, parameterized
over the outcome of `Diff.parsePatch` (lines 163-180): a throw or an empty
parse reports a parse error and applies nothing; otherwise the loop runs
and the three counters are reported in the summary message (line 208). -/
def applyAllPatchesToFiles (envs : Nat → ApplyEnv) : ParseOutcome → SessionResult
  | .threw => ⟨0, 0, 0, [.msg .error], true, none⟩
  | .parsed [] => ⟨0, 0, 0, [.msg .error], true, none⟩
  | .parsed (p :: ps) =>
    let r := sessionLoop envs (p :: ps) 0
    ⟨r.1, r.2.1, r.2.2.1, r.2.2.2, false, some (summaryMessage r.1 r.2.1 r.2.2.1)⟩

/-! ## File-Patch Parser, modelled from the spec

The source delegates parsing to `Diff.parsePatch` from the npm `diff`
package, whose code is not part of this repository.  The parser below is
modelled from spec §4.1-§4.3: sections are located by a `--- ` line
immediately followed by a `+++ ` line; each section's hunks are parsed
under `@@ -a[,b] +c[,d] @@` headers; each section's parse result is
reported independently; an input with no marker pair is `NoPatchesFound`.
Per §9 the hunk line-count check is the relaxed (non-failing) policy. -/

/-- Modelled from the spec: whole-blob parse failure (§4.3). -/
inductive ParseError where
  | noPatchesFound
  deriving DecidableEq, Repr

/-- Modelled from the spec: per-section parse failures (§4.1-§4.2). -/
inductive SectionError where
  | malformedHunkHeader
  | malformedLine
  deriving DecidableEq, Repr

/-- Modelled from the spec: a parsed hunk (§3), with classified lines. -/
structure Hunk where
  oldStart : Nat
  oldLines : Nat
  newStart : Nat
  newLines : Nat
  plines : List PLine
  deriving DecidableEq, Repr

/-- Modelled from the spec: a parsed per-file patch (§3). -/
structure FilePatch where
  oldPath : String
  newPath : String
  hunks : List Hunk
  deriving DecidableEq, Repr

/-- A position starts a file section: a `--- ` line immediately followed
by a `+++ ` line (§4.3). -/
def startsSection : List String → Bool
  | a :: b :: _ => strStarts "--- " a && strStarts "+++ " b
  | _ => false

/-- Modelled from the spec: body lines of a section up to the next section
start, and the remainder. -/
def takeBody : List String → List String × List String
  | [] => ([], [])
  | l :: rest =>
    if startsSection (l :: rest) then ([], l :: rest)
    else (l :: (takeBody rest).1, (takeBody rest).2)

theorem takeBody_snd_length_le (ls : List String) :
    (takeBody ls).2.length ≤ ls.length := by
  induction ls with
  | nil => simp [takeBody]
  | cons l rest ih =>
    simp only [takeBody]
    split
    · simp
    · exact Nat.le_succ_of_le ih

/-- Modelled from the spec: split the cleaned blob (as lines) into file
sections; text before the first section start is skipped. -/
def splitSections : List String → List (List String)
  | [] => []
  | [_] => []
  | a :: b :: rest =>
    if strStarts "--- " a && strStarts "+++ " b then
      (a :: b :: (takeBody rest).1) :: splitSections (takeBody rest).2
    else splitSections (b :: rest)
termination_by ls => ls.length
decreasing_by
  · exact Nat.lt_succ_of_lt (Nat.lt_succ_of_le (takeBody_snd_length_le rest))
  · simp

/-- Split a character list on a separator character. -/
def splitOnChar (c : Char) : List Char → List (List Char)
  | [] => [[]]
  | x :: xs =>
    match splitOnChar c xs with
    | [] => [[x]]
    | cur :: rest => if x = c then [] :: cur :: rest else (x :: cur) :: rest

/-- Decimal digit value of a character, if any. -/
def digitVal (c : Char) : Option Nat :=
  if '0' ≤ c ∧ c ≤ '9' then some (c.toNat - '0'.toNat) else none

/-- Accumulating decimal parser over characters. -/
def parseNatGo : List Char → Nat → Option Nat
  | [], acc => some acc
  | c :: rest, acc =>
    match digitVal c with
    | none => none
    | some d => parseNatGo rest (acc * 10 + d)

/-- Parse a non-empty all-digit character list as a natural number. -/
def parseNat : List Char → Option Nat
  | [] => none
  | l => parseNatGo l 0

/-- Modelled from the spec: parse one side of a hunk header, e.g. `-12,3`
or `+7` (missing length defaults to 1, §4.2). -/
def parseRange (sign : Char) : List Char → Option (Nat × Nat)
  | [] => none
  | c :: rest =>
    if c = sign then
      match splitOnChar ',' rest with
      | [a] => (parseNat a).map fun x => (x, 1)
      | [a, b] =>
        match parseNat a, parseNat b with
        | some x, some y => some (x, y)
        | _, _ => none
      | _ => none
    else none

/-- Modelled from the spec: parse a header matching
`@@ -oldStart[,oldLen] +newStart[,newLen] @@` (§4.2). -/
def parseHunkHeader (l : String) : Option (Nat × Nat × Nat × Nat) :=
  match splitOnChar ' ' l.data with
  | [h1, o, n, h2] =>
    if h1 = ['@', '@'] ∧ h2 = ['@', '@'] then
      match parseRange '-' o, parseRange '+' n with
      | some (os, ol), some (ns, nl) => some (os, ol, ns, nl)
      | _, _ => none
    else none
  | _ => none

/-- Modelled from the spec: body lines of one hunk, up to the next `@@`
header, and the remainder. -/
def takeHunkBody : List String → List String × List String
  | [] => ([], [])
  | l :: rest =>
    if strStarts "@@" l then ([], l :: rest)
    else (l :: (takeHunkBody rest).1, (takeHunkBody rest).2)

theorem takeHunkBody_snd_length_le (ls : List String) :
    (takeHunkBody ls).2.length ≤ ls.length := by
  induction ls with
  | nil => simp [takeHunkBody]
  | cons l rest ih =>
    simp only [takeHunkBody]
    split
    · simp
    · exact Nat.le_succ_of_le ih

/-- Classify every body line of a hunk (§4.1); `none` if any is malformed. -/
def classifyAll : List String → Option (List PLine)
  | [] => some []
  | l :: rest =>
    match classifyLine l, classifyAll rest with
    | some p, some ps => some (p :: ps)
    | _, _ => none

/-- Modelled from the spec: parse the hunks of one section body (§4.2);
a line where a header is expected that is not a well-formed header is
`MalformedHunkHeader`, an unclassifiable body line is a malformed-input
error (§4.1). -/
def parseHunks : List String → Except SectionError (List Hunk)
  | [] => .ok []
  | l :: rest =>
    match parseHunkHeader l with
    | none => .error .malformedHunkHeader
    | some (os, ol, ns, nl) =>
      match classifyAll (takeHunkBody rest).1 with
      | none => .error .malformedLine
      | some plines =>
        match parseHunks (takeHunkBody rest).2 with
        | .error e => .error e
        | .ok hs => .ok (⟨os, ol, ns, nl, plines⟩ :: hs)
termination_by ls => ls.length
decreasing_by
  exact Nat.lt_succ_of_le (takeHunkBody_snd_length_le rest)

/-- Modelled from the spec: parse one file section — the `--- `/`+++ `
path pair followed by the hunks (§4.3). -/
def parseSection (sec : List String) : Except SectionError FilePatch :=
  match sec with
  | o :: n :: body =>
    match parseHunks body with
    | .ok hs => .ok ⟨strDropN o 4, strDropN n 4, hs⟩
    | .error e => .error e
  | _ => .error .malformedHunkHeader

/-- Modelled from the spec: parse a cleaned multi-file blob given as a
list of lines; each located section is parsed independently, and a blob
with no `--- `/`+++ ` pair fails with `NoPatchesFound` (§4.3). -/
def parseLines (ls : List String) :
    Except ParseError (List (Except SectionError FilePatch)) :=
  let secs := splitSections ls
  if secs.isEmpty then .error .noPatchesFound
  else .ok (secs.map parseSection)

/-- No tail of the list starts a section. -/
def noStart : List String → Bool
  | [] => true
  | l :: rest => !startsSection (l :: rest) && noStart rest

/-- A well-shaped section block: a `--- ` line, a `+++ ` line, then a body
no tail of which starts a new section. -/
def goodBlock : List String → Bool
  | a :: b :: body => strStarts "--- " a && strStarts "+++ " b && noStart body
  | _ => false

/-- Render a classified line back to its raw diff form. -/
def renderPLine : PLine → String
  | .context t => " " ++ t
  | .added t => "+" ++ t
  | .removed t => "-" ++ t
  | .noNewline => "\\ No newline at end of file"

/-- Bridge from a spec-parsed `FilePatch` to the jsdiff-shaped structure
the session loop consumes. -/
def toStructured (fp : FilePatch) : StructuredPatch :=
  ⟨some fp.oldPath, some fp.newPath,
    fp.hunks.map fun h =>
      ⟨h.oldStart, h.oldLines, h.newStart, h.newLines, h.plines.map renderPLine⟩⟩

/-- Modelled from the spec: the session over a parse result — a failed
parse is reported and nothing is applied (source lines 163-180); a
successful parse hands the well-formed sections to the apply loop while
each malformed section's error was reported independently (§4.3, §4.6). -/
def sessionFromParse (envs : Nat → ApplyEnv)
    (pr : Except ParseError (List (Except SectionError FilePatch))) :
    SessionResult :=
  match pr with
  | .error _ => ⟨0, 0, 0, [.msg .error], true, none⟩
  | .ok secs =>
    applyAllPatchesToFiles envs
      (.parsed ((secs.filterMap Except.toOption).map toStructured))

/-! ## Helper lemmas -/

theorem mapCR_no_cr (l : List Char) :
    '\r' ∉ l.map fun c => if c = '\r' then '\n' else c := by
  intro h
  rcases List.mem_map.mp h with ⟨a, _, ha⟩
  by_cases hc : a = '\r' <;> simp [hc] at ha

theorem replCRLF_of_no_cr (l : List Char) (h : '\r' ∉ l) : replCRLF l = l := by
  induction l using replCRLF.induct with
  | case1 rest ih => exact absurd (List.mem_cons_self _ _) h
  | case2 c rest hne ih =>
    have hr : '\r' ∉ rest := fun hm => h (List.mem_cons_of_mem _ hm)
    rw [replCRLF.eq_2 c rest hne, ih hr]
  | case3 => exact replCRLF.eq_3

theorem mapCR_of_no_cr (l : List Char) (h : '\r' ∉ l) :
    (l.map fun c => if c = '\r' then '\n' else c) = l := by
  induction l with
  | nil => rfl
  | cons c rest ih =>
    have hc : c ≠ '\r' := fun he => h (he ▸ List.mem_cons_self c rest)
    have hr : '\r' ∉ rest := fun hm => h (List.mem_cons_of_mem _ hm)
    simp [hc, ih hr]

theorem applyCore_engine_call (env : ApplyEnv) (p : StructuredPatch)
    (isDel : Bool) (pre : List Effect) (original : String) (b : Bool)
    (effs : List Effect) (f : Nat) (inp : String)
    (hpre : ∀ f' i', Effect.engineCall f' i' ∉ pre)
    (h : applyCore env p isDel pre original = .ret b effs)
    (hm : Effect.engineCall f inp ∈ effs) :
    f = 2 ∧ inp = normalizeLineEndings original := by
  simp only [applyCore] at h
  rcases he : env.engine (normalizeLineEndings original) p 2 with _ | r <;>
    simp only [he] at h
  · cases h
    rcases List.mem_append.mp hm with hl | hr
    · exact absurd hl (hpre f inp)
    · simp only [List.mem_cons, List.not_mem_nil, or_false] at hr
      rcases hr with h1 | h1 <;> cases h1
      exact ⟨rfl, rfl⟩
  · by_cases hd : isDel = true
    · rw [if_pos hd] at h
      by_cases ht : (jsTrim r == "") = true
      · rw [if_pos ht] at h
        cases h
        rcases List.mem_append.mp hm with hl | hr
        · exact absurd hl (hpre f inp)
        · simp only [List.mem_cons, List.not_mem_nil, or_false] at hr
          rcases hr with h1 | h1 | h1 <;> cases h1
          exact ⟨rfl, rfl⟩
      · rw [if_neg ht] at h
        cases h
        rcases List.mem_append.mp hm with hl | hr
        · exact absurd hl (hpre f inp)
        · simp only [List.mem_cons, List.not_mem_nil, or_false] at hr
          rcases hr with h1 | h1 | h1 <;> cases h1
          exact ⟨rfl, rfl⟩
    · rw [if_neg hd] at h
      cases h
      rcases List.mem_append.mp hm with hl | hr
      · exact absurd hl (hpre f inp)
      · simp only [List.mem_cons, List.not_mem_nil, or_false] at hr
        rcases hr with h1 | h1 | h1 <;> cases h1
        exact ⟨rfl, rfl⟩

theorem applySinglePatch_engine_call (env : ApplyEnv) (p : StructuredPatch)
    (b : Bool) (effs : List Effect) (f : Nat) (inp : String)
    (h : applySinglePatch env p = .ret b effs)
    (hm : Effect.engineCall f inp ∈ effs) :
    f = 2 ∧ inp = normalizeLineEndings (if isNewFile p then "" else env.fileContent) := by
  simp only [applySinglePatch] at h
  split at h
  · cases h; simp at hm
  · split at h
    · cases h
    · split at h
      · cases h; simp at hm
      · split at h
        · cases h; simp at hm
        · split at h
          · cases h; simp at hm
          · split at h
            · rename_i hn
              simp only [hn, if_true]
              split at h
              · cases h; simp at hm
              · exact applyCore_engine_call env p _ [] "" b effs f inp
                  (by simp) h hm
            · rename_i hn
              simp only [Bool.not_eq_true] at hn
              simp only [hn, Bool.false_eq_true, if_false]
              split at h
              · cases h; simp at hm
              · exact applyCore_engine_call env p _ [.readFile] env.fileContent
                  b effs f inp (by simp) h hm

/-! ## Claim theorems -/

/-- C5: for every input string, line-ending normalization replaces every
`\r\n` pair and every remaining lone `\r` with `\n`, so the normalized
result contains no carriage returns (and is the identity on
carriage-return-free strings); and the engine input of every per-file
apply is the normalized original content, i.e. normalization happens
before any content comparison. -/
theorem c5_normalize_line_endings :
    (∀ s : String, '\r' ∉ (normalizeLineEndings s).data) ∧
    (∀ s : String, '\r' ∉ s.data → normalizeLineEndings s = s) ∧
    (∀ env p b effs f inp, applySinglePatch env p = .ret b effs →
      Effect.engineCall f inp ∈ effs →
      inp = normalizeLineEndings (if isNewFile p then "" else env.fileContent)) := by
  refine ⟨?_, ?_, ?_⟩
  · intro s
    unfold normalizeLineEndings
    split
    · simp
    · exact mapCR_no_cr _
  · intro s h
    obtain ⟨d⟩ := s
    unfold normalizeLineEndings
    split
    · rename_i hs
      exact hs.symm
    · rw [replCRLF_of_no_cr _ h, mapCR_of_no_cr _ h]
  · intro env p b effs f inp h hm
    exact (applySinglePatch_engine_call env p b effs f inp h hm).2

/-- Concrete modification patch used by witnesses. -/
def pMod : StructuredPatch := ⟨some "a/f.txt", some "b/f.txt", [⟨1, 1, 1, 1, ["-x", "+y"]⟩]⟩

/-- Concrete environment whose engine succeeds with `"y\n"`. -/
def envMod : ApplyEnv := ⟨true, false, .file, true, "x\n", fun _ _ _ => some "y\n"⟩

/-- Witness for C5 at concrete inputs. -/
theorem c5_witness :
    normalizeLineEndings "ab" = "ab" ∧
    "x\n" = normalizeLineEndings (if isNewFile pMod then "" else envMod.fileContent) :=
  ⟨c5_normalize_line_endings.2.1 "ab" (by decide),
   c5_normalize_line_endings.2.2 envMod pMod true
     [.readFile, .engineCall 2 "x\n", .writeFile "y\n", .msg .info] 2 "x\n"
     (by decide) (by decide)⟩

theorem sessionLoop_engine_call (envs : Nat → ApplyEnv)
    (ps : List StructuredPatch) (i f : Nat) (s : String)
    (hm : Effect.engineCall f s ∈ (sessionLoop envs ps i).2.2.2) : f = 2 := by
  induction ps generalizing i with
  | nil => simp [sessionLoop] at hm
  | cons p rest ih =>
    simp only [sessionLoop] at hm
    split at hm
    · simp only [List.mem_cons] at hm
      rcases hm with h1 | h1
      · cases h1
      · exact ih _ h1
    · split at hm
      · simp only [List.mem_cons] at hm
        rcases hm with h1 | h1
        · cases h1
        · exact ih _ h1
      · rcases List.mem_append.mp hm with h1 | h1
        · rename_i heq
          exact (applySinglePatch_engine_call _ _ _ _ _ _ heq h1).1
        · exact ih _ h1
      · rcases List.mem_append.mp hm with h1 | h1
        · rename_i heq
          exact (applySinglePatch_engine_call _ _ _ _ _ _ heq h1).1
        · exact ih _ h1

/-- C9: every invocation of the patch-application engine made through the
public apply operation (`applyAllPatchesToFiles` and the per-file
`applySinglePatch` calls it makes) passes a fuzz factor of exactly 2; the
operation takes no fuzz argument, so no caller can choose another
tolerance. -/
theorem c9_fuzz_factor_always_two (envs : Nat → ApplyEnv) (po : ParseOutcome)
    (f : Nat) (s : String)
    (hm : Effect.engineCall f s ∈ (applyAllPatchesToFiles envs po).effects) :
    f = 2 := by
  cases po with
  | threw => simp [applyAllPatchesToFiles] at hm
  | parsed ps =>
    cases ps with
    | nil => simp [applyAllPatchesToFiles] at hm
    | cons p rest =>
      simp only [applyAllPatchesToFiles] at hm
      exact sessionLoop_engine_call envs (p :: rest) 0 f s hm

/-- Witness for C9: a concrete session makes an engine call, and the
theorem forces its fuzz factor to be 2. -/
theorem c9_witness : (2 : Nat) = 2 :=
  c9_fuzz_factor_always_two (fun _ => envMod) (.parsed [pMod]) 2 "x\n" (by decide)

/-- C1: if the engine cannot apply the patch to the original content, the
per-file apply call returns failure with no write and no delete effect;
and on the modification path that actually reaches the engine the call
performs exactly a read, the failing engine call and an error report —
the target file is never touched. -/
theorem c1_engine_failure_leaves_file_untouched (env : ApplyEnv)
    (p : StructuredPatch)
    (hEng : ∀ s, env.engine s p 2 = none)
    (hNoThrow : env.resolutionThrows = false) :
    (∃ effs, applySinglePatch env p = .ret false effs ∧ untouched effs = true) ∧
    (env.targetResolved = true → env.statResult = .file → isNewFile p = false →
      isBadName (searchName0 p) = false →
      applySinglePatch env p = .ret false
        [.readFile, .engineCall 2 (normalizeLineEndings env.fileContent), .msg .error]) := by
  constructor
  · simp only [applySinglePatch]
    split
    · exact ⟨_, rfl, rfl⟩
    · split
      · rename_i h2
        rw [hNoThrow] at h2
        cases h2
      · split
        · exact ⟨_, rfl, rfl⟩
        · split
          · exact ⟨_, rfl, rfl⟩
          · split
            · exact ⟨_, rfl, rfl⟩
            · split
              · split
                · exact ⟨_, rfl, rfl⟩
                · simp only [applyCore, hEng]
                  exact ⟨_, rfl, rfl⟩
              · split
                · exact ⟨_, rfl, rfl⟩
                · simp only [applyCore, hEng]
                  exact ⟨_, rfl, rfl⟩
  · intro h1 h2 h3 h4
    simp [applySinglePatch, applyCore, h1, h2, h3, h4, hNoThrow, hEng]

/-- Environment whose engine always fails. -/
def envFail : ApplyEnv := ⟨true, false, .file, true, "x\n", fun _ _ _ => none⟩

/-- Witness for C1: a concrete failing apply reports an error and emits no
write or delete. -/
theorem c1_witness :
    applySinglePatch envFail pMod = .ret false
      [.readFile, .engineCall 2 (normalizeLineEndings envFail.fileContent), .msg .error] ∧
    untouched [.readFile, .engineCall 2 (normalizeLineEndings envFail.fileContent),
      .msg .error] = true :=
  ⟨(c1_engine_failure_leaves_file_untouched envFail pMod (fun _ => rfl) rfl).2
      rfl rfl (by decide) (by decide),
   rfl⟩

/-- C2 (amended): on the deletion path, the source tests
`patchedContentResult.trim() === ''` — a whitespace-only engine result is
deleted; only a result containing non-whitespace is written with a warning. -/
theorem c2_deletion_trim_decides (env : ApplyEnv) (p : StructuredPatch)
    (r : String)
    (hDel : isDeletedFile p = true) (hNew : isNewFile p = false)
    (hName : isBadName (searchName0 p) = false)
    (hNoThrow : env.resolutionThrows = false)
    (hRes : env.targetResolved = true) (hStat : env.statResult = .file)
    (hEng : env.engine (normalizeLineEndings env.fileContent) p 2 = some r) :
    (jsTrim r = "" →
      applySinglePatch env p = .ret true
        [.readFile, .engineCall 2 (normalizeLineEndings env.fileContent),
         .deleteFile, .msg .info]) ∧
    (jsTrim r ≠ "" →
      applySinglePatch env p = .ret true
        [.readFile, .engineCall 2 (normalizeLineEndings env.fileContent),
         .writeFile r, .msg .warning]) := by
  constructor <;> intro ht <;>
    simp [applySinglePatch, applyCore, hDel, hNew, hName, hNoThrow, hRes,
      hStat, hEng, ht]

/-- Concrete deletion patch. -/
def pDel : StructuredPatch := ⟨some "a/f.txt", some "/dev/null", [⟨1, 2, 1, 1, [" l", "-x"]⟩]⟩

/-- Environment whose engine leaves a whitespace-only residue on deletion. -/
def envWs : ApplyEnv := ⟨true, false, .file, true, " \nx\n", fun _ _ _ => some " \n"⟩

/-- Counterexample to C2 as stated: for this deletion patch the engine
succeeds with the non-empty result `" \n"`, yet the file is deleted (no
write occurs), because the source tests the trimmed result. -/
theorem c2_counterexample :
    isDeletedFile pDel = true ∧ (" \n" : String) ≠ "" ∧
    applySinglePatch envWs pDel =
      .ret true [.readFile, .engineCall 2 " \nx\n", .deleteFile, .msg .info] := by
  decide

/-- Environment whose engine leaves a non-whitespace residue on deletion. -/
def envKeep : ApplyEnv := ⟨true, false, .file, true, "x\nkeep\n", fun _ _ _ => some "keep\n"⟩

/-- Witness for the amended C2: a non-whitespace residue is written with a
warning instead of deleting the file. -/
theorem c2_witness :
    applySinglePatch envKeep pDel = .ret true
      [.readFile, .engineCall 2 (normalizeLineEndings envKeep.fileContent),
       .writeFile "keep\n", .msg .warning] :=
  (c2_deletion_trim_decides envKeep pDel "keep\n" (by decide) (by decide)
      (by decide) rfl rfl rfl (by decide)).2 (by decide)

/-- C6: a patch whose old path is the `/dev/null` sentinel (raw or
`a/`-prefixed) is treated as file creation — no read effect is emitted and
the engine is invoked with the empty string as original content. -/
theorem c6_creation_uses_empty_original (env : ApplyEnv) (p : StructuredPatch)
    (nm : String)
    (hOld : p.oldFileName = some "/dev/null" ∨ p.oldFileName = some "a/dev/null")
    (hNm : p.newFileName = some nm) (hNmNe : nm ≠ "")
    (hNoThrow : env.resolutionThrows = false)
    (hRes : env.targetResolved = true)
    (hStat : env.statResult = .notFound ∨
      (env.statResult = .file ∧ env.overwriteOk = true)) :
    ∃ b effs, applySinglePatch env p = .ret b effs ∧
      Effect.readFile ∉ effs ∧ Effect.engineCall 2 "" ∈ effs := by
  have hNew : isNewFile p = true := by
    rcases hOld with h | h <;> simp [isNewFile, h]
  have hTruthy : jsTruthy p.newFileName = true := by
    simp [jsTruthy, hNm, hNmNe]
  have hnorm : normalizeLineEndings "" = "" := rfl
  have hstep : applySinglePatch env p = applyCore env p (isDeletedFile p) [] "" := by
    rcases hStat with h | ⟨h, hov⟩
    · simp [applySinglePatch, hNew, hTruthy, hNoThrow, hRes, h, beq_iff_eq]
    · simp [applySinglePatch, hNew, hTruthy, hNoThrow, hRes, h, hov, beq_iff_eq]
  rw [hstep]
  simp only [applyCore, hnorm]
  rcases he : env.engine "" p 2 with _ | r
  · exact ⟨false, _, rfl, by simp, by simp⟩
  · dsimp only
    by_cases hd : isDeletedFile p = true
    · rw [if_pos hd]
      by_cases ht : (jsTrim r == "") = true
      · rw [if_pos ht]
        exact ⟨true, _, rfl, by simp, by simp⟩
      · rw [if_neg ht]
        exact ⟨true, _, rfl, by simp, by simp⟩
    · rw [if_neg hd]
      exact ⟨true, _, rfl, by simp, by simp⟩

/-- Concrete creation patch. -/
def pNew : StructuredPatch := ⟨some "/dev/null", some "b/new.txt", [⟨0, 0, 1, 1, ["+x"]⟩]⟩

/-- Environment for creating a file that does not yet exist. -/
def envNew : ApplyEnv := ⟨true, false, .notFound, true, "", fun _ _ _ => some "x\n"⟩

/-- Witness for C6 at a concrete creation patch. -/
theorem c6_witness :
    ∃ b effs, applySinglePatch envNew pNew = .ret b effs ∧
      Effect.readFile ∉ effs ∧ Effect.engineCall 2 "" ∈ effs :=
  c6_creation_uses_empty_original envNew pNew "b/new.txt" (Or.inl rfl) rfl
    (by decide) rfl rfl (Or.inl rfl)

theorem sessionLoop_counts (envs : Nat → ApplyEnv)
    (ps : List StructuredPatch) (i : Nat) :
    (sessionLoop envs ps i).1 + (sessionLoop envs ps i).2.1 +
      (sessionLoop envs ps i).2.2.1 = ps.length := by
  induction ps generalizing i with
  | nil => simp [sessionLoop]
  | cons p rest ih =>
    have h := ih (i + 1)
    simp only [sessionLoop, List.length_cons]
    split
    · dsimp only
      omega
    · split <;> dsimp only <;> omega

/-- C10: over a successfully parsed non-empty patch list, the three session
counters partition the patches — applied + skipped + errors equals the
number of parsed file patches — and the summary message reports all three. -/
theorem c10_counters_partition (envs : Nat → ApplyEnv)
    (ps : List StructuredPatch) (hne : ps ≠ []) :
    (applyAllPatchesToFiles envs (.parsed ps)).applied +
      (applyAllPatchesToFiles envs (.parsed ps)).skipped +
      (applyAllPatchesToFiles envs (.parsed ps)).errors = ps.length ∧
    (applyAllPatchesToFiles envs (.parsed ps)).summary =
      some (summaryMessage (applyAllPatchesToFiles envs (.parsed ps)).applied
        (applyAllPatchesToFiles envs (.parsed ps)).skipped
        (applyAllPatchesToFiles envs (.parsed ps)).errors) := by
  cases ps with
  | nil => exact absurd rfl hne
  | cons p rest =>
    refine ⟨?_, rfl⟩
    simpa [applyAllPatchesToFiles] using sessionLoop_counts envs (p :: rest) 0

/-- Patch with no hunks (skipped by the session loop). -/
def pEmptyHunks : StructuredPatch := ⟨some "a/e.txt", some "b/e.txt", []⟩

/-- Environment whose resolution phase throws (counted as an error). -/
def envThrow : ApplyEnv := ⟨true, true, .file, true, "", fun _ _ _ => none⟩

/-- Per-index environments exercising all three counters. -/
def envsMix : Nat → ApplyEnv := fun i => if i = 1 then envMod else envThrow

/-- Witness for C10: a concrete session with one skipped, one applied and
one errored patch has counters summing to 3 and reports all three. -/
theorem c10_witness :
    (applyAllPatchesToFiles envsMix (.parsed [pEmptyHunks, pMod, pMod])).applied +
      (applyAllPatchesToFiles envsMix (.parsed [pEmptyHunks, pMod, pMod])).skipped +
      (applyAllPatchesToFiles envsMix (.parsed [pEmptyHunks, pMod, pMod])).errors = 3 ∧
    (applyAllPatchesToFiles envsMix (.parsed [pEmptyHunks, pMod, pMod])).summary =
      some (summaryMessage
        (applyAllPatchesToFiles envsMix (.parsed [pEmptyHunks, pMod, pMod])).applied
        (applyAllPatchesToFiles envsMix (.parsed [pEmptyHunks, pMod, pMod])).skipped
        (applyAllPatchesToFiles envsMix (.parsed [pEmptyHunks, pMod, pMod])).errors) :=
  c10_counters_partition envsMix [pEmptyHunks, pMod, pMod] (by decide)

theorem srcOldSel_classify (l : String) :
    srcOldSel l = (classifyLine l).bind plineOld := by
  obtain ⟨d⟩ := l
  cases d with
  | nil => rfl
  | cons c rest =>
    simp only [srcOldSel, classifyLine]
    by_cases h1 : c = ' '
    · simp [h1, plineOld]
    · by_cases h2 : c = '+'
      · simp [h1, h2, plineOld]
      · by_cases h3 : c = '-'
        · simp [h1, h2, h3, plineOld]
        · by_cases h4 : c = '\\' <;> simp [h1, h2, h3, h4, plineOld]

theorem srcNewSel_classify (l : String) :
    srcNewSel l = (classifyLine l).bind plineNew := by
  obtain ⟨d⟩ := l
  cases d with
  | nil => rfl
  | cons c rest =>
    simp only [srcNewSel, classifyLine]
    by_cases h1 : c = ' '
    · simp [h1, plineNew]
    · by_cases h2 : c = '+'
      · simp [h1, h2, plineNew]
      · by_cases h3 : c = '-'
        · simp [h1, h2, h3, plineNew]
        · by_cases h4 : c = '\\' <;> simp [h1, h2, h3, h4, plineNew]

/-- C4: the Content Reconstructor's original side is exactly the payloads
of the Context and Removed lines across all hunks in order (and the
modified side those of Context and Added lines), as classified by the
spec's Line Classifier; and the reconstruction only depends on each hunk's
line list — hunk headers (offsets) are ignored, so no offset, overlap or
ordering validation can occur, and no file content enters the computation. -/
theorem c4_reconstructor_is_projection :
    (∀ hunks : List JHunk,
      originalContentLines hunks = specOldLines hunks ∧
      newContentLines hunks = specNewLines hunks) ∧
    (∀ h1 h2 : List JHunk, h1.map JHunk.lines = h2.map JHunk.lines →
      reconstructOriginal h1 = reconstructOriginal h2 ∧
      reconstructModified h1 = reconstructModified h2) := by
  have holdFn : srcOldSel = fun l => (classifyLine l).bind plineOld :=
    funext srcOldSel_classify
  have hnewFn : srcNewSel = fun l => (classifyLine l).bind plineNew :=
    funext srcNewSel_classify
  have hold : ∀ hunks : List JHunk,
      originalContentLines hunks = specOldLines hunks := by
    intro hunks
    simp only [originalContentLines, specOldLines, List.filterMap_filterMap,
      holdFn]
  have hnew : ∀ hunks : List JHunk,
      newContentLines hunks = specNewLines hunks := by
    intro hunks
    simp only [newContentLines, specNewLines, List.filterMap_filterMap,
      hnewFn]
  refine ⟨fun hunks => ⟨hold hunks, hnew hunks⟩, ?_⟩
  have key : ∀ (sel : String → Option String) (h1 h2 : List JHunk),
      h1.map JHunk.lines = h2.map JHunk.lines →
      (h1.flatMap fun h => h.lines.filterMap sel) =
        (h2.flatMap fun h => h.lines.filterMap sel) := by
    intro sel h1 h2 hmap
    rw [← List.flatMap_map JHunk.lines (fun ls => ls.filterMap sel) h1,
        ← List.flatMap_map JHunk.lines (fun ls => ls.filterMap sel) h2, hmap]
  refine fun h1 h2 hmap => ⟨?_, ?_⟩
  · simp only [reconstructOriginal, originalContentLines]
    rw [key srcOldSel h1 h2 hmap]
  · simp only [reconstructModified, newContentLines]
    rw [key srcNewSel h1 h2 hmap]

/-- Witness for C4: the projection identity at a concrete hunk, and header
invariance between two hunks with equal lines but different offsets. -/
theorem c4_witness :
    originalContentLines [⟨1, 1, 1, 1, [" x", "-y", "+z"]⟩] =
      specOldLines [⟨1, 1, 1, 1, [" x", "-y", "+z"]⟩] ∧
    reconstructOriginal [⟨1, 1, 1, 1, [" x"]⟩] =
      reconstructOriginal [⟨7, 9, 3, 5, [" x"]⟩] :=
  ⟨(c4_reconstructor_is_projection.1 _).1,
   (c4_reconstructor_is_projection.2 [⟨1, 1, 1, 1, [" x"]⟩]
      [⟨7, 9, 3, 5, [" x"]⟩] (by decide)).1⟩

theorem mkData (s : String) : (⟨s.data⟩ : String) = s := rfl

theorem trimList_of_ends (c d : Char) (m : List Char)
    (hc : isJsSpace c = false) (hd : isJsSpace d = false) :
    trimList (c :: (m ++ [d])) = c :: (m ++ [d]) := by
  simp [trimList, List.dropWhile_cons, hc, hd, List.reverse_append]

theorem trimList_cons_space (c : Char) (l : List Char)
    (hc : isJsSpace c = true) : trimList (c :: l) = trimList l := by
  simp [trimList, List.dropWhile_cons, hc]

theorem trimList_append_space (l : List Char) (c : Char)
    (hc : isJsSpace c = true) : trimList (l ++ [c]) = trimList l := by
  unfold trimList
  rw [List.dropWhile_append]
  by_cases he : (l.dropWhile isJsSpace).isEmpty
  · rw [if_pos he]
    rw [List.isEmpty_iff] at he
    rw [he]
    simp [List.dropWhile_cons, hc]
  · rw [if_neg he]
    simp [List.reverse_append, List.dropWhile_cons, hc]

theorem dropRight3 (l : List Char) (a b c : Char) :
    strDropRightN ⟨l ++ [a, b, c]⟩ 3 = ⟨l⟩ := by
  simp only [strDropRightN]
  have hlen : (l ++ [a, b, c]).length - 3 = l.length := by simp
  rw [hlen, List.take_left]

/-- Counterexample to C7 as stated: an opening fence without the `diff`
language tag is not stripped — the cleaned text is not the inner diff text. -/
theorem c7_counterexample :
    cleanDiffInput "```\nX\n```" = "```\nX" ∧ ("```\nX" : String) ≠ "X" := by
  decide

/-- C7 (amended): the pre-processing trims surrounding whitespace, strips
a leading fence only when it carries the `diff` language tag (the
"```diff" opener) and strips a trailing "```" fence, yielding the trimmed
inner text; an opening fence without the `diff` tag is left in place. -/
theorem c7_fence_stripping_amended (t : String) :
    cleanDiffInput ("```diff\n" ++ t ++ "\n```") = jsTrim t ∧
    cleanDiffInput ("```\n" ++ t ++ "\n```") = jsTrim ("```\n" ++ t) := by
  obtain ⟨d⟩ := t
  constructor
  · have hsdata : ("```diff\n" ++ (⟨d⟩ : String) ++ "\n```").data =
        ['`', '`', '`', 'd', 'i', 'f', 'f', '\n'] ++ d ++ ['\n', '`', '`', '`'] := by
      simp [String.data_append]
    have hfix :
        trimList (['`', '`', '`', 'd', 'i', 'f', 'f', '\n'] ++ d ++ ['\n', '`', '`', '`']) =
          ['`', '`', '`', 'd', 'i', 'f', 'f', '\n'] ++ d ++ ['\n', '`', '`', '`'] := by
      have h := trimList_of_ends '`' '`'
        (['`', '`', 'd', 'i', 'f', 'f', '\n'] ++ d ++ ['\n', '`', '`'])
        (by decide) (by decide)
      simpa [List.append_assoc] using h
    have htrim : jsTrim ("```diff\n" ++ (⟨d⟩ : String) ++ "\n```") =
        ("```diff\n" ++ (⟨d⟩ : String) ++ "\n```") := by
      show (⟨trimList ("```diff\n" ++ (⟨d⟩ : String) ++ "\n```").data⟩ : String) = _
      rw [hsdata, hfix, ← hsdata]
    have hstart : strStarts "```diff" ("```diff\n" ++ (⟨d⟩ : String) ++ "\n```") = true := by
      simp only [strStarts]
      rw [hsdata]
      simp [List.isPrefixOf]
    have hdrop : strDropN ("```diff\n" ++ (⟨d⟩ : String) ++ "\n```") 7 =
        ⟨'\n' :: (d ++ ['\n', '`', '`', '`'])⟩ := by
      simp only [strDropN]
      rw [hsdata]
      simp [List.append_assoc]
    have hend : strEnds "```" (⟨'\n' :: (d ++ ['\n', '`', '`', '`'])⟩ : String) = true := by
      simp [strEnds, List.isSuffixOf, List.isPrefixOf, List.reverse_append]
    have hdr : strDropRightN (⟨'\n' :: (d ++ ['\n', '`', '`', '`'])⟩ : String) 3 =
        ⟨'\n' :: (d ++ ['\n'])⟩ := by
      have hshape : '\n' :: (d ++ ['\n', '`', '`', '`']) =
          ('\n' :: (d ++ ['\n'])) ++ ['`', '`', '`'] := by simp
      rw [hshape]
      exact dropRight3 _ '`' '`' '`'
    have hfinal : jsTrim (⟨'\n' :: (d ++ ['\n'])⟩ : String) = jsTrim ⟨d⟩ := by
      show (⟨trimList ('\n' :: (d ++ ['\n']))⟩ : String) = _
      rw [trimList_cons_space '\n' _ (by decide), trimList_append_space d '\n' (by decide)]
      rfl
    simp only [cleanDiffInput, htrim, hstart, if_true, hdrop, hend, hdr, hfinal]
  · have hsdata : ("```\n" ++ (⟨d⟩ : String) ++ "\n```").data =
        ['`', '`', '`', '\n'] ++ d ++ ['\n', '`', '`', '`'] := by
      simp [String.data_append]
    have hfix :
        trimList (['`', '`', '`', '\n'] ++ d ++ ['\n', '`', '`', '`']) =
          ['`', '`', '`', '\n'] ++ d ++ ['\n', '`', '`', '`'] := by
      have h := trimList_of_ends '`' '`'
        (['`', '`', '\n'] ++ d ++ ['\n', '`', '`']) (by decide) (by decide)
      simpa [List.append_assoc] using h
    have htrim : jsTrim ("```\n" ++ (⟨d⟩ : String) ++ "\n```") =
        ("```\n" ++ (⟨d⟩ : String) ++ "\n```") := by
      show (⟨trimList ("```\n" ++ (⟨d⟩ : String) ++ "\n```").data⟩ : String) = _
      rw [hsdata, hfix, ← hsdata]
    have hstart : strStarts "```diff" ("```\n" ++ (⟨d⟩ : String) ++ "\n```") = false := by
      simp only [strStarts]
      rw [hsdata]
      simp [List.isPrefixOf]
    have hsEq : ("```\n" ++ (⟨d⟩ : String) ++ "\n```") =
        ⟨['`', '`', '`', '\n'] ++ d ++ ['\n', '`', '`', '`']⟩ := by
      rw [← hsdata]
    have hend : strEnds "```" ("```\n" ++ (⟨d⟩ : String) ++ "\n```") = true := by
      rw [hsEq]
      simp [strEnds, List.isSuffixOf, List.isPrefixOf, List.reverse_append]
    have hdr : strDropRightN ("```\n" ++ (⟨d⟩ : String) ++ "\n```") 3 =
        ⟨['`', '`', '`', '\n'] ++ d ++ ['\n']⟩ := by
      rw [hsEq]
      have hshape : ['`', '`', '`', '\n'] ++ d ++ ['\n', '`', '`', '`'] =
          (['`', '`', '`', '\n'] ++ d ++ ['\n']) ++ ['`', '`', '`'] := by simp
      rw [hshape]
      exact dropRight3 _ '`' '`' '`'
    have hfinal : jsTrim (⟨['`', '`', '`', '\n'] ++ d ++ ['\n']⟩ : String) =
        jsTrim ("```\n" ++ (⟨d⟩ : String)) := by
      show (⟨trimList (['`', '`', '`', '\n'] ++ d ++ ['\n'])⟩ : String) = _
      rw [trimList_append_space _ '\n' (by decide)]
      have h2 : ("```\n" ++ (⟨d⟩ : String)).data = ['`', '`', '`', '\n'] ++ d := by
        simp [String.data_append]
      show _ = (⟨trimList ("```\n" ++ (⟨d⟩ : String)).data⟩ : String)
      rw [h2]
    simp only [cleanDiffInput, htrim, hstart, Bool.false_eq_true, if_false, hend,
      if_true, hdr, hfinal]

theorem dash_not_plus (s : String) (h : strStarts "--- " s = true) :
    strStarts "+++ " s = false := by
  obtain ⟨d⟩ := s
  cases d with
  | nil => simp [strStarts, List.isPrefixOf] at h
  | cons c rest =>
    simp only [strStarts, List.isPrefixOf, Bool.and_eq_true, beq_iff_eq] at h ⊢
    obtain ⟨h1, -⟩ := h
    subst h1
    simp

/-- The remainder after a section body is either empty or the start of the
next well-shaped block. -/
def nextBlockOk : List String → Prop
  | [] => True
  | r :: rs => startsSection (r :: rs) = true ∧ strStarts "+++ " r = false

theorem takeBody_split (body rest : List String)
    (hb : noStart body = true) (hr : nextBlockOk rest) :
    takeBody (body ++ rest) = (body, rest) := by
  induction body with
  | nil =>
    cases rest with
    | nil => rfl
    | cons r rs =>
      obtain ⟨h1, -⟩ := hr
      simp [takeBody, h1]
  | cons l body' ih =>
    simp only [noStart, Bool.and_eq_true, Bool.not_eq_true'] at hb
    obtain ⟨hhead, htail⟩ := hb
    have hfull : startsSection (l :: (body' ++ rest)) = false := by
      cases body' with
      | cons x xs => simpa [startsSection] using hhead
      | nil =>
        cases rest with
        | nil => simp [startsSection]
        | cons r rs =>
          obtain ⟨-, h2⟩ := hr
          simp [startsSection, h2]
    show takeBody (l :: (body' ++ rest)) = (l :: body', rest)
    simp only [takeBody, hfull, Bool.false_eq_true, if_false, ih htail]

theorem splitSections_join (blocks : List (List String))
    (hall : ∀ b ∈ blocks, goodBlock b = true) :
    splitSections blocks.flatten = blocks := by
  induction blocks with
  | nil => simp [splitSections]
  | cons b bs ih =>
    have hb := hall b (List.mem_cons_self _ _)
    cases b with
    | nil => simp [goodBlock] at hb
    | cons a b1 =>
      cases b1 with
      | nil => simp [goodBlock] at hb
      | cons x body =>
        simp only [goodBlock, Bool.and_eq_true] at hb
        obtain ⟨⟨ha, hx⟩, hbody⟩ := hb
        have hnext : nextBlockOk bs.flatten := by
          cases bs with
          | nil => simp [nextBlockOk]
          | cons b2 bs2 =>
            have hb2 := hall b2 (by simp)
            cases b2 with
            | nil => simp [goodBlock] at hb2
            | cons a2 t2 =>
              cases t2 with
              | nil => simp [goodBlock] at hb2
              | cons x2 body2 =>
                simp only [goodBlock, Bool.and_eq_true] at hb2
                obtain ⟨⟨ha2, hx2⟩, -⟩ := hb2
                constructor
                · simp [startsSection, List.flatten, ha2, hx2]
                · simpa [List.flatten] using dash_not_plus a2 ha2
        have hstep : splitSections (a :: x :: (body ++ bs.flatten)) =
            (a :: x :: (takeBody (body ++ bs.flatten)).1) ::
              splitSections (takeBody (body ++ bs.flatten)).2 := by
          simp [splitSections, ha, hx]
        simp only [List.flatten_cons, List.cons_append, hstep,
          takeBody_split body bs.flatten hbody hnext]
        exact congrArg _ (ih fun b hb => hall b (List.mem_cons_of_mem _ hb))

theorem splitSections_nil (ls : List String) (h : noStart ls = true) :
    splitSections ls = [] := by
  induction ls with
  | nil => simp [splitSections]
  | cons a rest ih =>
    cases rest with
    | nil => simp [splitSections]
    | cons b rest2 =>
      simp only [noStart, Bool.and_eq_true, Bool.not_eq_true'] at h
      obtain ⟨h1, h2⟩ := h
      have hcond : (strStarts "--- " a && strStarts "+++ " b) = false := by
        simpa [startsSection] using h1
      have h2' : noStart (b :: rest2) = true := by
        simp only [noStart, Bool.and_eq_true, Bool.not_eq_true']
        cases rest2 with
        | nil => simp [noStart, startsSection]
        | cons c r3 =>
          simp only [noStart, Bool.and_eq_true, Bool.not_eq_true'] at h2
          exact ⟨h2.1, by simp only [noStart, Bool.and_eq_true,
            Bool.not_eq_true'] ; exact h2.2⟩
      simp only [splitSections, hcond, Bool.false_eq_true, if_false]
      exact ih h2'

/-- C8: for an input whose lines contain no `--- `/`+++ ` marker pair,
the (spec-modelled) parser fails with `NoPatchesFound`, the failure is
reported, and no patch application is attempted — the session performs no
effect besides the error report. -/
theorem c8_no_marker_pair_no_patches (ls : List String)
    (envs : Nat → ApplyEnv) (h : noStart ls = true) :
    parseLines ls = .error .noPatchesFound ∧
    sessionFromParse envs (parseLines ls) =
      ⟨0, 0, 0, [.msg .error], true, none⟩ := by
  have hp : parseLines ls = .error .noPatchesFound := by
    simp [parseLines, splitSections_nil ls h]
  exact ⟨hp, by rw [hp]; rfl⟩

/-- Witness for C8 at a concrete marker-free input. -/
theorem c8_witness :
    parseLines ["hello", "world"] = .error .noPatchesFound ∧
    sessionFromParse (fun _ => envMod) (parseLines ["hello", "world"]) =
      ⟨0, 0, 0, [.msg .error], true, none⟩ :=
  c8_no_marker_pair_no_patches ["hello", "world"] (fun _ => envMod) (by decide)

/-- C3: a blob assembled from well-shaped sections, one of which fails to
parse while the others parse, yields exactly one reported section error
and all the other sections' FilePatches — and the session proceeds with
precisely the successfully parsed sections (spec-modelled parser §4.3). -/
theorem c3_malformed_section_isolated (pre post : List (List String))
    (bad : List String) (envs : Nat → ApplyEnv)
    (hpre : ∀ b ∈ pre, goodBlock b = true ∧ (parseSection b).isOk = true)
    (hpost : ∀ b ∈ post, goodBlock b = true ∧ (parseSection b).isOk = true)
    (hbadBlock : goodBlock bad = true)
    (hbad : (parseSection bad).isOk = false) :
    parseLines ((pre ++ [bad] ++ post).flatten) =
      .ok ((pre ++ [bad] ++ post).map parseSection) ∧
    ((pre ++ [bad] ++ post).map parseSection).countP (fun r => r.isOk) =
      pre.length + post.length ∧
    ((pre ++ [bad] ++ post).map parseSection).countP (fun r => !r.isOk) = 1 ∧
    sessionFromParse envs (parseLines ((pre ++ [bad] ++ post).flatten)) =
      applyAllPatchesToFiles envs (.parsed
        ((((pre ++ [bad] ++ post).map parseSection).filterMap
          Except.toOption).map toStructured)) := by
  have hall : ∀ b ∈ pre ++ [bad] ++ post, goodBlock b = true := by
    intro b hb
    rcases List.mem_append.mp hb with hb1 | hb2
    · rcases List.mem_append.mp hb1 with h | h
      · exact (hpre b h).1
      · rw [List.mem_singleton] at h
        subst h
        exact hbadBlock
    · exact (hpost b hb2).1
  have hsplit := splitSections_join (pre ++ [bad] ++ post) hall
  have hcount : ∀ q : List (List String),
      (∀ b ∈ q, (parseSection b).isOk = true) →
      (q.map parseSection).countP (fun r => r.isOk) = q.length ∧
      (q.map parseSection).countP (fun r => !r.isOk) = 0 := by
    intro q
    induction q with
    | nil => intro _; simp
    | cons b bs ih =>
      intro hq
      have hb := hq b (List.mem_cons_self _ _)
      have ihs := ih fun x hx => hq x (List.mem_cons_of_mem _ hx)
      simp [List.countP_cons, hb, ihs.1, ihs.2]
  have hp := hcount pre fun b hb => (hpre b hb).2
  have hq := hcount post fun b hb => (hpost b hb).2
  have hparse : parseLines ((pre ++ [bad] ++ post).flatten) =
      .ok ((pre ++ [bad] ++ post).map parseSection) := by
    simp only [parseLines, hsplit]
    rw [if_neg (by simp)]
  refine ⟨hparse, ?_, ?_, ?_⟩
  · simp [List.map_append, List.countP_append, hp.1, hq.1, List.countP_cons, hbad]
  · simp [List.map_append, List.countP_append, hp.2, hq.2, List.countP_cons, hbad]
  · rw [hparse]; rfl

/-- Concrete well-formed section. -/
def secGood1 : List String := ["--- a/f", "+++ b/f", "@@ -1,1 +1,1 @@", " x"]

/-- Concrete malformed section (bad hunk header). -/
def secBad : List String := ["--- a/g", "+++ b/g", "@@ broken"]

/-- Concrete second well-formed section. -/
def secGood2 : List String := ["--- a/h", "+++ b/h", "@@ -0,0 +1,1 @@", "+y"]

/-- Witness for C3 at a concrete three-section blob. -/
theorem c3_witness :
    parseLines (([secGood1] ++ [secBad] ++ [secGood2]).flatten) =
      .ok (([secGood1] ++ [secBad] ++ [secGood2]).map parseSection) ∧
    (([secGood1] ++ [secBad] ++ [secGood2]).map parseSection).countP
      (fun r => r.isOk) = 2 ∧
    (([secGood1] ++ [secBad] ++ [secGood2]).map parseSection).countP
      (fun r => !r.isOk) = 1 ∧
    sessionFromParse (fun _ => envMod)
      (parseLines (([secGood1] ++ [secBad] ++ [secGood2]).flatten)) =
      applyAllPatchesToFiles (fun _ => envMod) (.parsed
        (((([secGood1] ++ [secBad] ++ [secGood2]).map parseSection).filterMap
          Except.toOption).map toStructured)) :=
  c3_malformed_section_isolated [secGood1] [secGood2] secBad (fun _ => envMod)
    (by
      intro b hb
      rw [List.mem_singleton] at hb
      subst hb
      exact ⟨by decide, by simp [parseSection, secGood1, parseHunks,
        parseHunkHeader, takeHunkBody, parseRange, splitOnChar, parseNat,
        parseNatGo, digitVal, classifyLine, classifyAll, strStarts,
        List.isPrefixOf, Except.isOk, Except.toBool]⟩)
    (by
      intro b hb
      rw [List.mem_singleton] at hb
      subst hb
      exact ⟨by decide, by simp [parseSection, secGood2, parseHunks,
        parseHunkHeader, takeHunkBody, parseRange, splitOnChar, parseNat,
        parseNatGo, digitVal, classifyLine, classifyAll, strStarts,
        List.isPrefixOf, Except.isOk, Except.toBool]⟩)
    (by decide)
    (by simp [parseSection, secBad, parseHunks, parseHunkHeader, takeHunkBody,
      parseRange, splitOnChar, parseNat, parseNatGo, digitVal, classifyLine,
      classifyAll, strStarts, List.isPrefixOf, Except.isOk, Except.toBool])

end PatchApply
